import Mathlib

/-!
Verification development for the WhisperWriter activation/recording/transcription
subsystem (`src/main.py`, `src/transcription.py`).

Python strings are modelled as lists of Unicode codepoints (`List Nat`).
The character classes used by the source (`str.lower`, regex `\w`, regex `\s`,
`str.isspace`) are modelled at the ASCII level, which covers the behaviour of
the source on ASCII text; 16-bit audio samples are modelled as `Int`, and the
exact power-of-two rescaling of `transcribe_local` is modelled over `ℚ`
(conversion of an int16 value to float32 is exact, and division by `32768.0`
is exact for those magnitudes, so the rational model loses nothing).
-/

namespace WhisperWriter

/-- Codepoints of a Lean string literal; used to write down concrete Python
strings appearing in the source and in the claims. -/
def pyOfString (s : String) : List Nat :=
  s.data.map Char.toNat

/-- Python `str.lower` on one codepoint (ASCII case mapping: `A`-`Z` maps to
`a`-`z`, everything else is unchanged). -/
def pyLower (c : Nat) : Nat :=
  if 65 ≤ c ∧ c ≤ 90 then c + 32 else c

/-- Python regex class `\w` on one codepoint (ASCII: letters, digits and the
underscore), as used by `re.sub(r'[^\w\s]', ' ', ...)` in `sanitize_text`. -/
def isWordCode (c : Nat) : Bool :=
  decide ((97 ≤ c ∧ c ≤ 122) ∨ (65 ≤ c ∧ c ≤ 90) ∨ (48 ≤ c ∧ c ≤ 57) ∨ c = 95)

/-- Python regex class `\s` / `str.isspace` on one codepoint (ASCII whitespace:
space, tab, newline, carriage return, vertical tab, form feed). -/
def isSpaceCode (c : Nat) : Bool :=
  decide (c = 32 ∨ c = 9 ∨ c = 10 ∨ c = 13 ∨ c = 11 ∨ c = 12)

/-- One character step of `re.sub(r'[^\w\s]', ' ', ...)`: a codepoint that is
neither a word character nor whitespace is replaced by a space. -/
def subCode (c : Nat) : Nat :=
  if isWordCode c || isSpaceCode c then c else 32

/-- The per-character action of `sanitize_text`: `text.lower()` first, then the
punctuation-to-space substitution. -/
def sanitizeMap (c : Nat) : Nat :=
  subCode (pyLower c)

/-- Python `str.split()` with no separator (used by `sanitize_text`): split on
runs of whitespace, discarding empty pieces.  `acc` holds the reversed current
word. -/
def splitWordsAux : List Nat → List Nat → List (List Nat)
  | [], acc => if acc = [] then [] else [acc.reverse]
  | c :: rest, acc =>
    if isSpaceCode c then
      if acc = [] then splitWordsAux rest []
      else acc.reverse :: splitWordsAux rest []
    else splitWordsAux rest (c :: acc)

/-- Python `text.split()`. -/
def splitWords (l : List Nat) : List (List Nat) :=
  splitWordsAux l []

/-- Python `' '.join(words)`. -/
def joinWords : List (List Nat) → List Nat
  | [] => []
  | [w] => w
  | w :: ws => w ++ 32 :: joinWords ws

/-- `sanitize_text` from `src/transcription.py`: lowercase, replace
non-word/non-space characters by spaces, then normalize whitespace via
`' '.join(text.split())`. -/
def sanitize_text (text : List Nat) : List Nat :=
  joinWords (splitWords (text.map sanitizeMap))

/-- Python `str.strip()`: drop leading and trailing whitespace. -/
def pyStrip (t : List Nat) : List Nat :=
  ((t.dropWhile (fun c => isSpaceCode c)).reverse.dropWhile (fun c => isSpaceCode c)).reverse



/-- Match a literal word (given as lowercase codepoints) case-insensitively at
the head of the input, returning the remainder; one atom of the pattern
`wiz\s+open\s+edge` compiled with `re.IGNORECASE` in `handle_open_edge`. -/
def matchLit : List Nat → List Nat → Option (List Nat)
  | [], rest => some rest
  | _ :: _, [] => none
  | p :: ps, d :: ds => if pyLower d == p then matchLit ps ds else none

/-- Match `\s+` at the head of the input (greedy; safe without backtracking
here because every following pattern atom starts with a non-space letter). -/
def matchSpaces : List Nat → Option (List Nat)
  | [] => none
  | c :: rest =>
    if isSpaceCode c then some (rest.dropWhile (fun d => isSpaceCode d)) else none

/-- Match the whole pattern `wiz\s+open\s+edge` (case-insensitive) at the head
of the input, returning the remainder after the match. -/
def matchCmdAt (l : List Nat) : Option (List Nat) :=
  (matchLit (pyOfString ("wiz")) l).bind fun r1 =>
  (matchSpaces r1).bind fun r2 =>
  (matchLit (pyOfString ("open")) r2).bind fun r3 =>
  (matchSpaces r3).bind fun r4 =>
  matchLit (pyOfString ("edge")) r4

/-- Fuel-indexed scan of `re.sub(pattern, '', text)`: at each position try the
pattern; on a match, drop the matched characters and continue after them,
otherwise keep the character and move on.  Any match consumes at least one
character, so fuel `l.length` suffices. -/
def subCmdAux : Nat → List Nat → List Nat
  | 0, l => l
  | _ + 1, [] => []
  | fuel + 1, c :: rest =>
    match matchCmdAt (c :: rest) with
    | some rem => subCmdAux fuel rem
    | none => c :: subCmdAux fuel rest

/-- `re.sub(re.compile(r'wiz\s+open\s+edge', re.IGNORECASE), '', text)` as used
by `handle_open_edge`. -/
def subCmd (l : List Nat) : List Nat :=
  subCmdAux l.length l


/-- `handle_open_edge` from `src/transcription.py`.  The `subprocess.Popen`
side effect is abstracted by the flag `popenFails`: when the call raises, the
handler catches the exception and returns `(False, transcription)`; otherwise
it removes the command phrase from the original text and strips it. -/
def handle_open_edge (popenFails : Bool) (transcription : List Nat) : Bool × List Nat :=
  if popenFails then (false, transcription)
  else (true, pyStrip (subCmd transcription))

/-- The phrase registered for `handle_open_edge` by `@register_command`. -/
def wizOpenEdge : List Nat := pyOfString ("wiz open edge")

/-- The global `COMMAND_HANDLERS` registry of `src/transcription.py`: insertion
order of the one `@register_command` registration, i.e. the single entry
`"wiz open edge" ↦ handle_open_edge`. -/
def COMMAND_HANDLERS (popenFails : Bool) : List (List Nat × (List Nat → Bool × List Nat)) :=
  [(wizOpenEdge, handle_open_edge popenFails)]

/-- Python list/str equality test `needle == hay[:len(needle)]`: does `needle`
start the list `hay`? -/
def startsWithSub : List Nat → List Nat → Bool
  | [], _ => true
  | _ :: _, [] => false
  | n :: ns, h :: hs => n == h && startsWithSub ns hs

/-- Python substring test `needle in hay`. -/
def containsSub (needle : List Nat) : List Nat → Bool
  | [] => needle.isEmpty
  | c :: rest => startsWithSub needle (c :: rest) || containsSub needle rest



/-- The `for command_phrase, handler_func in COMMAND_HANDLERS.items()` loop of
`execute_commands`: first registered phrase that is a substring of the
sanitized text wins and its handler is called on the original text. -/
def executeLoop (sanitized transcription : List Nat) :
    List (List Nat × (List Nat → Bool × List Nat)) → Bool × List Nat
  | [] => (false, transcription)
  | (phrase, handler) :: rest =>
    if containsSub phrase sanitized then handler transcription
    else executeLoop sanitized transcription rest

/-- `execute_commands` generalized over the registry it iterates (the source
iterates the global insertion-ordered dict `COMMAND_HANDLERS`). -/
def executeCommandsWith (registry : List (List Nat × (List Nat → Bool × List Nat)))
    (transcription : List Nat) : Bool × List Nat :=
  executeLoop (sanitize_text transcription) transcription registry

/-- `execute_commands` from `src/transcription.py`, over the actual global
registry. -/
def execute_commands (popenFails : Bool) (transcription : List Nat) : Bool × List Nat :=
  executeCommandsWith (COMMAND_HANDLERS popenFails) transcription

/-- The `post_processing` configuration section. -/
structure PostProcessingConfig where
  remove_trailing_period : Bool
  add_trailing_space : Bool
  remove_capitalization : Bool

/-- Python `transcription.endswith('.')`. -/
def endsWithPeriod (t : List Nat) : Bool :=
  t.getLast? == some 46

/-- `post_process_transcription` from `src/transcription.py`: strip, run
command detection/execution, then the three independently toggleable steps in
their fixed order (trailing-period removal, trailing-space append, lowercase). -/
def post_process_transcription (cfg : PostProcessingConfig) (popenFails : Bool)
    (transcription : List Nat) : List Nat :=
  let t1 := pyStrip transcription
  let t2 := (execute_commands popenFails t1).2
  let t3 := if cfg.remove_trailing_period && endsWithPeriod t2 then t2.dropLast else t2
  let t4 := if cfg.add_trailing_space then t3 ++ [32] else t3
  if cfg.remove_capitalization then t4.map pyLower else t4

/-- Modelled from the spec's words (§4.5 TextPostProcessor): trim, then the
three flag steps in the stated order, with no other step in between.  Used to
compare the claimed pipeline against `post_process_transcription`. -/
def specPostProcess (cfg : PostProcessingConfig) (text : List Nat) : List Nat :=
  let t1 := pyStrip text
  let t2 := if cfg.remove_trailing_period && endsWithPeriod t1 then t1.dropLast else t1
  let t3 := if cfg.add_trailing_space then t2 ++ [32] else t2
  if cfg.remove_capitalization then t3.map pyLower else t3

/-- The rescaling `audio_data.astype(np.float32) / 32768.0` on one 16-bit
sample, over `ℚ` (exact: every int16 value is exactly representable in
float32, and division by the power of two `32768` is exact at these
magnitudes, so the float32 computation agrees with the rational one). -/
def scaleSample (s : Int) : ℚ :=
  (s : ℚ) / 32768

/-- `transcribe_local` from `src/transcription.py` with the faster-whisper
model abstracted as a function from the rescaled sample buffer to the list of
segment texts: rescale the samples, call the model, and join the segment texts
(`''.join(segment.text for segment in list(response[0]))`). -/
def transcribe_local (model : List ℚ → List (List Nat)) (audio : List Int) : List Nat :=
  (model (audio.map scaleSample)).flatten

/-- `transcribe` from `src/transcription.py`, instrumented with backend call
counts in order to state "neither backend is invoked": the result is
`(text, localCalls, apiCalls)`.  The source short-circuits exactly when
`audio_data is None`; an empty-but-present buffer takes the backend branch. -/
def transcribe (useApi : Bool) (cfg : PostProcessingConfig) (popenFails : Bool)
    (model : List ℚ → List (List Nat)) (apiBackend : List Int → List Nat)
    (audio : Option (List Int)) : List Nat × Nat × Nat :=
  match audio with
  | none => ([], 0, 0)
  | some a =>
    if useApi then (post_process_transcription cfg popenFails (apiBackend a), 0, 1)
    else (post_process_transcription cfg popenFails (transcribe_local model a), 1, 0)

/-- `transcribe` in the fallible setting: each backend may raise (modelled as
`Except`).  `transcribe` itself has no `try`/`except`, so a backend exception
propagates out of the dispatch; only the `audio_data is None` short-circuit
avoids the backends. -/
def transcribeE (useApi : Bool) (cfg : PostProcessingConfig) (popenFails : Bool)
    (localBackend apiBackend : List Int → Except (List Nat) (List Nat))
    (audio : Option (List Int)) : Except (List Nat) (List Nat) :=
  match audio with
  | none => Except.ok []
  | some a =>
    (if useApi then apiBackend a else localBackend a).map
      (post_process_transcription cfg popenFails)

/-- Modelled from the spec: the recording session (`ResultThread`, whose file
`result_thread.py` is not under `src/`) catches any exception escaping the
transcription pipeline, logs it, and delivers the empty string as the result
(spec §4.2: "Any exception raised within the transcription backend is caught,
logged ... and treated as an empty-string result"). -/
def sessionDeliver (r : Except (List Nat) (List Nat)) : List Nat :=
  match r with
  | Except.ok t => t
  | Except.error _ => []

/-- The `model_options.local` configuration section read by
`create_local_model` (`model_path := none` models a missing/empty path, which
is falsy in Python). -/
structure LocalModelOptions where
  model : String
  model_path : Option String
  compute_type : String
  device : String

/-- The arguments with which `create_local_model` constructs `WhisperModel`. -/
structure CreatedModel where
  modelId : String
  device : String
  compute_type : String

/-- `create_local_model` from `src/transcription.py`: `int8` quantization
forces the CPU device; otherwise the configured device is used; if the
`WhisperModel` constructor raises (`initFails`), fall back to CPU with the
same model identifier. -/
def create_local_model (opts : LocalModelOptions) (initFails : Bool) : CreatedModel :=
  let device := if opts.compute_type = "int8" then "cpu" else opts.device
  let modelId := opts.model_path.getD opts.model
  if initFails then
    { modelId := modelId, device := "cpu", compute_type := opts.compute_type }
  else
    { modelId := modelId, device := device, compute_type := opts.compute_type }

/-- `recording_options.recording_mode`. -/
inductive RecordingMode where
  | press_to_toggle
  | hold_to_record
  | continuous
  deriving DecidableEq

/-- State of the controller in `main.py`: the `running` status of every
`ResultThread` ever created, most recent first; `self.result_thread` is the
head. -/
structure AppState where
  threads : List Bool
  deriving DecidableEq

/-- `self.result_thread and self.result_thread.isRunning()`. -/
def isThreadRunning (s : AppState) : Bool :=
  s.threads.headD false

/-- `start_result_thread` from `src/main.py`: if a result thread is running,
return without creating anything; otherwise create and start a new
`ResultThread`. -/
def start_result_thread (s : AppState) : AppState :=
  if isThreadRunning s then s else ⟨true :: s.threads⟩

/-- Modelled from the spec: completion of the current `ResultThread`'s `run()`
(`result_thread.py` is not under `src/`) — the thread stops running.  Spec
§4.2: the session transitions to Stopped when it delivers its result. -/
def finishCurrentThread (s : AppState) : AppState :=
  match s.threads with
  | [] => s
  | _ :: rest => ⟨false :: rest⟩

/-- `on_transcription_complete` from `src/main.py`, restricted to its effect
on the thread population: in continuous mode a new result thread is started;
otherwise the key listener is re-armed and no thread is created. -/
def on_transcription_complete (mode : RecordingMode) (s : AppState) : AppState :=
  if mode = RecordingMode.continuous then start_result_thread s else s

/-- `on_activation` from `src/main.py`: while a thread is running,
press-to-toggle requests `stop_recording()` and continuous requests
`stop_result_thread()` — both cooperative signals that create no thread and
stop none synchronously — and the handler returns; otherwise it starts a new
result thread. -/
def on_activation (_mode : RecordingMode) (s : AppState) : AppState :=
  if isThreadRunning s then s else start_result_thread s

/-- `on_deactivation` from `src/main.py`: in hold-to-record mode, a running
thread receives `stop_recording()` (a cooperative signal); no thread is
created or destroyed synchronously. -/
def on_deactivation (_mode : RecordingMode) (s : AppState) : AppState :=
  s

/-- Externally observable events driving the controller: hotkey press, hotkey
release, normal completion of the current thread (which emits `resultSignal`
and triggers `on_transcription_complete`), and a thread ending without a
result (e.g. after `stop_result_thread`). -/
inductive AppEvent where
  | activation
  | deactivation
  | threadDone
  | threadAborted
  deriving DecidableEq

/-- One controller step. -/
def stepApp (mode : RecordingMode) (s : AppState) : AppEvent → AppState
  | AppEvent.activation => on_activation mode s
  | AppEvent.deactivation => on_deactivation mode s
  | AppEvent.threadDone => on_transcription_complete mode (finishCurrentThread s)
  | AppEvent.threadAborted => finishCurrentThread s

/-- The controller run from the initial state (`self.result_thread = None`). -/
def runApp (mode : RecordingMode) (events : List AppEvent) : AppState :=
  events.foldl (stepApp mode) ⟨[]⟩

/-- Number of result threads currently running. -/
def runningCount (s : AppState) : Nat :=
  s.threads.countP (fun b => b)

/-- Controller invariant: every thread other than the current one has stopped. -/
def tailStopped (s : AppState) : Prop :=
  ∀ b ∈ s.threads.tail, b = false

lemma all_false_of_not_running (s : AppState) (hr : isThreadRunning s = false)
    (ht : tailStopped s) : ∀ b ∈ s.threads, b = false := by
  obtain ⟨threads⟩ := s
  cases threads with
  | nil => intro b hb; simp at hb
  | cons h t =>
    intro b hb
    have hh : h = false := by simpa [isThreadRunning] using hr
    rcases List.mem_cons.mp hb with rfl | hb
    · exact hh
    · exact ht b hb

lemma start_tailStopped (s : AppState) (ht : tailStopped s) :
    tailStopped (start_result_thread s) := by
  unfold start_result_thread
  by_cases hr : isThreadRunning s = true
  · simpa [hr] using ht
  · have hr' : isThreadRunning s = false := by simpa using hr
    simp only [hr', if_neg, Bool.false_eq_true, if_false]
    intro b hb
    exact all_false_of_not_running s hr' ht b hb

lemma finish_tailStopped (s : AppState) (ht : tailStopped s) :
    tailStopped (finishCurrentThread s) := by
  obtain ⟨threads⟩ := s
  cases threads with
  | nil => exact ht
  | cons h t => exact ht

lemma step_tailStopped (m : RecordingMode) (s : AppState) (e : AppEvent)
    (ht : tailStopped s) : tailStopped (stepApp m s e) := by
  cases e with
  | activation =>
    show tailStopped (on_activation m s)
    unfold on_activation
    by_cases hr : isThreadRunning s = true
    · simpa [hr] using ht
    · have hr' : isThreadRunning s = false := by simpa using hr
      simpa [hr'] using start_tailStopped s ht
  | deactivation => exact ht
  | threadDone =>
    show tailStopped (on_transcription_complete m (finishCurrentThread s))
    unfold on_transcription_complete
    by_cases hm : m = RecordingMode.continuous
    · simpa [hm] using start_tailStopped _ (finish_tailStopped s ht)
    · simpa [hm] using finish_tailStopped s ht
  | threadAborted => exact finish_tailStopped s ht

lemma runApp_tailStopped (m : RecordingMode) (events : List AppEvent) :
    tailStopped (runApp m events) := by
  have key : ∀ (es : List AppEvent) (s : AppState), tailStopped s →
      tailStopped (es.foldl (stepApp m) s) := by
    intro es
    induction es with
    | nil => intro s hs; exact hs
    | cons e rest ih => intro s hs; exact ih _ (step_tailStopped m s e hs)
  exact key events ⟨[]⟩ (by intro b hb; simp at hb)

lemma runningCount_le_one (s : AppState) (ht : tailStopped s) :
    runningCount s ≤ 1 := by
  obtain ⟨threads⟩ := s
  cases threads with
  | nil => simp [runningCount]
  | cons h t =>
    have h0 : t.countP (fun b => b) = 0 := by
      rw [List.countP_eq_zero]
      intro b hb
      simp [ht b hb]
    simp only [runningCount, List.countP_cons, h0]
    cases h <;> simp

/-- C1.  For every sequence of activation/deactivation/completion events, at
most one result thread is running at any instant, and a start request while a
thread is running creates no second thread: it is a no-op on the controller
state. -/
theorem claim1_single_active_session :
    (∀ (mode : RecordingMode) (events : List AppEvent),
        runningCount (runApp mode events) ≤ 1) ∧
    (∀ s : AppState, isThreadRunning s = true → start_result_thread s = s) := by
  constructor
  · intro mode events
    exact runningCount_le_one _ (runApp_tailStopped mode events)
  · intro s hs
    unfold start_result_thread
    simp [hs]

/-- Witness for C1 at a concrete trace and a concrete running state. -/
theorem claim1_witness :
    runningCount (runApp RecordingMode.continuous
      [AppEvent.activation, AppEvent.activation, AppEvent.threadDone]) ≤ 1 ∧
    start_result_thread ⟨[true]⟩ = ⟨[true]⟩ :=
  ⟨claim1_single_active_session.1 _ _, claim1_single_active_session.2 ⟨[true]⟩ rfl⟩

/-- C2 counterexample.  An empty-but-present audio buffer (`some []`, i.e. an
empty array, which is not `None`) does not short-circuit: the local backend is
invoked (call count 1, not 0) and the delivered text is whatever the backend
returned, not the empty string. -/
theorem claim2_counterexample :
    (transcribe false ⟨false, false, false⟩ false
        (fun _ => [pyOfString ("x")]) (fun _ => []) (some [])).2.1 = 1 ∧
    (transcribe false ⟨false, false, false⟩ false
        (fun _ => [pyOfString ("x")]) (fun _ => []) (some [])).1 ≠ [] := by
  constructor
  · rfl
  · decide

/-- C2 amended.  Only an absent buffer (`None`) short-circuits to the empty
string with neither backend invoked; a present buffer — empty or not — is
dispatched to exactly the configured backend. -/
theorem claim2_none_short_circuits :
    ∀ (useApi : Bool) (cfg : PostProcessingConfig) (pf : Bool)
      (model : List ℚ → List (List Nat)) (api : List Int → List Nat),
    transcribe useApi cfg pf model api none = ([], 0, 0) ∧
    ∀ a, (transcribe useApi cfg pf model api (some a)).2 =
      if useApi then (0, 1) else (1, 0) := by
  intro useApi cfg pf model api
  constructor
  · rfl
  · intro a
    unfold transcribe
    by_cases h : useApi = true <;> simp [h]

/-- C7.  `transcribe_local` hands the backend exactly the input samples each
divided by `32768`; the endpoints of the int16 range map to `32767/32768`
(within float32 epsilon `2 ^ (-23)` — the model is exact, so the distance is
zero) and to exactly `-1`. -/
theorem claim7_sample_scaling :
    (∀ (model : List ℚ → List (List Nat)) (audio : List Int),
        transcribe_local model audio =
          (model (audio.map (fun s : Int => (s : ℚ) / 32768))).flatten) ∧
    scaleSample 32767 = 32767 / 32768 ∧
    scaleSample (-32768) = -1 ∧
    |scaleSample 32767 - 32767 / 32768| ≤ 1 / 8388608 := by
  refine ⟨fun model audio => rfl, by norm_num [scaleSample], ?_, ?_⟩
  · show ((-32768 : Int) : ℚ) / 32768 = -1
    norm_num
  · show |((32767 : Int) : ℚ) / 32768 - 32767 / 32768| ≤ 1 / 8388608
    norm_num

/-- C8.  If the selected backend raises, the exception propagates out of
`transcribe` (which has no handler) and is caught at the session boundary,
which delivers the empty string; a stopped controller state accepts the next
start request, so the controller stays usable. -/
theorem claim8_backend_error_empty_result :
    (∀ (cfg : PostProcessingConfig) (pf : Bool)
       (localB apiB : List Int → Except (List Nat) (List Nat))
       (a : List Int) (e : List Nat), localB a = Except.error e →
        sessionDeliver (transcribeE false cfg pf localB apiB (some a)) = []) ∧
    (∀ (cfg : PostProcessingConfig) (pf : Bool)
       (localB apiB : List Int → Except (List Nat) (List Nat))
       (a : List Int) (e : List Nat), apiB a = Except.error e →
        sessionDeliver (transcribeE true cfg pf localB apiB (some a)) = []) ∧
    (∀ s : AppState, isThreadRunning s = false →
        isThreadRunning (start_result_thread s) = true) := by
  refine ⟨?_, ?_, ?_⟩
  · intro cfg pf localB apiB a e h
    simp [transcribeE, h, sessionDeliver, Except.map]
  · intro cfg pf localB apiB a e h
    simp [transcribeE, h, sessionDeliver, Except.map]
  · intro s hs
    unfold start_result_thread
    rw [hs]
    simp [isThreadRunning]

/-- Witness for C8: a backend that always raises yields the empty result on
both dispatch paths, and a fresh controller accepts a start. -/
theorem claim8_witness :
    sessionDeliver (transcribeE false ⟨false, false, false⟩ false
      (fun _ => Except.error []) (fun _ => Except.ok []) (some [])) = [] ∧
    sessionDeliver (transcribeE true ⟨false, false, false⟩ false
      (fun _ => Except.ok []) (fun _ => Except.error []) (some [])) = [] ∧
    isThreadRunning (start_result_thread ⟨[]⟩) = true :=
  ⟨claim8_backend_error_empty_result.1 _ false _ _ [] [] rfl,
   claim8_backend_error_empty_result.2.1 _ false _ _ [] [] rfl,
   claim8_backend_error_empty_result.2.2 ⟨[]⟩ rfl⟩

/-- C9.  Whenever the configured local compute type is `int8`,
`create_local_model` uses the CPU device, whatever device the configuration
names and whether or not model initialization fails. -/
theorem claim9_int8_forces_cpu :
    ∀ (opts : LocalModelOptions) (initFails : Bool),
      opts.compute_type = "int8" →
      (create_local_model opts initFails).device = "cpu" := by
  intro opts initFails h
  unfold create_local_model
  cases initFails <;> simp [h]

/-- Witness for C9 at a configuration naming a CUDA device. -/
theorem claim9_witness :
    (create_local_model ⟨("base"), none, ("int8"), ("cuda")⟩ false).device = "cpu" :=
  claim9_int8_forces_cpu _ false rfl

lemma execute_commands_no_match (pf : Bool) (t : List Nat)
    (h : containsSub wizOpenEdge (sanitize_text t) = false) :
    execute_commands pf t = (false, t) := by
  unfold execute_commands executeCommandsWith COMMAND_HANDLERS
  simp [executeLoop, h]

lemma post_process_no_match (cfg : PostProcessingConfig) (pf : Bool) (t : List Nat)
    (h : containsSub wizOpenEdge (sanitize_text (pyStrip t)) = false) :
    post_process_transcription cfg pf t = specPostProcess cfg t := by
  simp only [post_process_transcription, specPostProcess]
  rw [execute_commands_no_match pf _ h]

lemma execute_commands_popen_fails (t : List Nat) :
    execute_commands true t = (false, t) := by
  unfold execute_commands executeCommandsWith COMMAND_HANDLERS
  by_cases h : containsSub wizOpenEdge (sanitize_text t) = true
  · simp [executeLoop, h, handle_open_edge]
  · rw [Bool.not_eq_true] at h
    simp [executeLoop, h]

lemma executeLoop_eq_find (san t : List Nat)
    (registry : List (List Nat × (List Nat → Bool × List Nat))) :
    executeLoop san t registry =
      match registry.find? (fun e => containsSub e.1 san) with
      | some e => e.2 t
      | none => (false, t) := by
  induction registry with
  | nil => rfl
  | cons e rest ih =>
    obtain ⟨p, h⟩ := e
    by_cases hc : containsSub p san = true
    · simp [executeLoop, List.find?, hc]
    · rw [Bool.not_eq_true] at hc
      simp [executeLoop, List.find?, hc, ih]

/-- C3 counterexample.  On the input `"wiz open edge."` with all three flags
enabled, the code runs command execution between the trim and the flag steps
(stripping the matched phrase), so it produces `" "`, while the claimed
pipeline (trim, drop trailing period, append space, lowercase — and nothing
else) produces `"wiz open edge "`. -/
theorem claim3_counterexample :
    post_process_transcription ⟨true, true, true⟩ false (pyOfString ("wiz open edge.")) =
      pyOfString (" ") ∧
    specPostProcess ⟨true, true, true⟩ (pyOfString ("wiz open edge.")) =
      pyOfString ("wiz open edge ") ∧
    pyOfString (" ") ≠ pyOfString ("wiz open edge ") := by
  refine ⟨by decide, by decide, by decide⟩

/-- C3 amended.  Post-processing trims, then runs command
detection/execution (which may alter the text), then applies the three flag
steps in the claimed order; for every input whose sanitized trimmed text does
not contain the registered phrase the result is exactly the claimed
trim→period→space→lowercase pipeline, and `"Hello."` with all three flags
enabled yields `"hello "`. -/
theorem claim3_pipeline_order :
    (∀ (cfg : PostProcessingConfig) (pf : Bool) (t : List Nat),
        containsSub wizOpenEdge (sanitize_text (pyStrip t)) = false →
        post_process_transcription cfg pf t = specPostProcess cfg t) ∧
    (∀ pf : Bool, post_process_transcription ⟨true, true, true⟩ pf
        (pyOfString ("Hello.")) = pyOfString ("hello ")) := by
  constructor
  · intro cfg pf t h
    exact post_process_no_match cfg pf t h
  · intro pf
    cases pf <;> decide

/-- Witness for C3 at a concrete command-free input. -/
theorem claim3_witness :
    post_process_transcription ⟨true, true, true⟩ false (pyOfString ("  Hi there. ")) =
      specPostProcess ⟨true, true, true⟩ (pyOfString ("  Hi there. ")) ∧
    post_process_transcription ⟨true, true, true⟩ false (pyOfString ("Hello.")) =
      pyOfString ("hello ") :=
  ⟨claim3_pipeline_order.1 _ false _ (by decide), claim3_pipeline_order.2 false⟩

/-- C4.  Command matching returns the result of the first registered entry
whose phrase is a substring of the sanitized text (registry iteration order),
so at most one handler runs; with `"wiz open edge"` registered before
`"wiz open"` and an input containing both, only the first fires. -/
theorem claim4_first_match :
    (∀ (registry : List (List Nat × (List Nat → Bool × List Nat))) (t : List Nat),
        executeCommandsWith registry t =
          match registry.find? (fun e => containsSub e.1 (sanitize_text t)) with
          | some e => e.2 t
          | none => (false, t)) ∧
    executeCommandsWith
      [(pyOfString ("wiz open edge"), fun _ => (true, pyOfString ("FIRST"))),
       (pyOfString ("wiz open"), fun _ => (true, pyOfString ("SECOND")))]
      (pyOfString ("wiz open edge now")) = (true, pyOfString ("FIRST")) := by
  constructor
  · intro registry t
    exact executeLoop_eq_find (sanitize_text t) t registry
  · decide

/-- C5.  When no registered phrase occurs in the sanitized text, command
execution returns `(false, text)` with the text unchanged. -/
theorem claim5_no_match_pass_through :
    ∀ (registry : List (List Nat × (List Nat → Bool × List Nat))) (t : List Nat),
      (∀ e ∈ registry, containsSub e.1 (sanitize_text t) = false) →
      executeCommandsWith registry t = (false, t) := by
  intro registry t h
  unfold executeCommandsWith
  induction registry with
  | nil => rfl
  | cons e rest ih =>
    obtain ⟨p, hd⟩ := e
    have hp : containsSub p (sanitize_text t) = false := h (p, hd) (by simp)
    simp only [executeLoop, hp]
    simp only [Bool.false_eq_true, if_false]
    exact ih (fun e' he' => h e' (List.mem_cons_of_mem _ he'))

/-- Witness for C5: the actual registry against a text containing no command
phrase. -/
theorem claim5_witness :
    executeCommandsWith (COMMAND_HANDLERS false) (pyOfString ("hello world")) =
      (false, pyOfString ("hello world")) :=
  claim5_no_match_pass_through _ _ (by decide)

/-- C6.  When the matched handler's side effect fails (`subprocess.Popen`
raises), the handler catches the exception and command execution reports
`executed = false` with the original text unmodified; post-processing then
continues normally, coinciding with the pure trim-and-flags pipeline on every
input. -/
theorem claim6_handler_failure_recovers :
    (∀ t : List Nat, containsSub wizOpenEdge (sanitize_text t) = true →
        execute_commands true t = (false, t)) ∧
    (∀ (cfg : PostProcessingConfig) (t : List Nat),
        post_process_transcription cfg true t = specPostProcess cfg t) := by
  constructor
  · intro t _
    exact execute_commands_popen_fails t
  · intro cfg t
    simp only [post_process_transcription, specPostProcess]
    rw [execute_commands_popen_fails (pyStrip t)]

/-- Witness for C6 at an input that matches the registered command. -/
theorem claim6_witness :
    execute_commands true (pyOfString ("wiz open edge please")) =
      (false, pyOfString ("wiz open edge please")) ∧
    post_process_transcription ⟨true, true, true⟩ true (pyOfString ("A.")) =
      specPostProcess ⟨true, true, true⟩ (pyOfString ("A.")) :=
  ⟨claim6_handler_failure_recovers.1 _ (by decide),
   claim6_handler_failure_recovers.2 _ _⟩

lemma pyLower_not_upper (c : Nat) : ¬(65 ≤ pyLower c ∧ pyLower c ≤ 90) := by
  unfold pyLower
  split_ifs with h <;> omega

lemma subCode_class (c : Nat) (hc : ¬(65 ≤ c ∧ c ≤ 90)) :
    (isWordCode (subCode c) = true ∧ ¬(65 ≤ subCode c ∧ subCode c ≤ 90)) ∨
      isSpaceCode (subCode c) = true := by
  unfold subCode
  by_cases h : (isWordCode c || isSpaceCode c) = true
  · rw [if_pos h]
    have h' : isWordCode c = true ∨ isSpaceCode c = true := by simpa using h
    rcases h' with hw | hs
    · exact Or.inl ⟨hw, hc⟩
    · exact Or.inr hs
  · rw [if_neg h]
    exact Or.inr (by decide)

lemma sanitizeMap_class (c : Nat) :
    (isWordCode (sanitizeMap c) = true ∧ ¬(65 ≤ sanitizeMap c ∧ sanitizeMap c ≤ 90)) ∨
      isSpaceCode (sanitizeMap c) = true :=
  subCode_class (pyLower c) (pyLower_not_upper c)

lemma sanitizeMap_fix (c : Nat)
    (h : (isWordCode c = true ∧ ¬(65 ≤ c ∧ c ≤ 90)) ∨ c = 32) :
    sanitizeMap c = c := by
  rcases h with ⟨hw, hu⟩ | rfl
  · have hl : pyLower c = c := by unfold pyLower; rw [if_neg hu]
    unfold sanitizeMap
    rw [hl]
    unfold subCode
    rw [if_pos (by simp [hw])]
  · decide

lemma map_fix : ∀ (l : List Nat) (f : Nat → Nat), (∀ c ∈ l, f c = c) → l.map f = l := by
  intro l f
  induction l with
  | nil => intro _; rfl
  | cons a l ih =>
    intro h
    simp only [List.map_cons]
    rw [h a (List.mem_cons_self _ _), ih (fun c hc => h c (List.mem_cons_of_mem a hc))]

lemma splitWordsAux_word : ∀ (w rest acc : List Nat),
    (∀ c ∈ w, isSpaceCode c = false) →
    splitWordsAux (w ++ rest) acc = splitWordsAux rest (w.reverse ++ acc) := by
  intro w
  induction w with
  | nil => intro rest acc _; simp
  | cons c w ih =>
    intro rest acc h
    have hc : isSpaceCode c = false := h c (List.mem_cons_self c w)
    show splitWordsAux (c :: (w ++ rest)) acc = _
    simp only [splitWordsAux]
    rw [if_neg (by simp [hc])]
    rw [ih rest (c :: acc) (fun d hd => h d (List.mem_cons_of_mem c hd))]
    simp [List.append_assoc]

lemma splitWordsAux_space (X acc : List Nat) (ha : acc ≠ []) :
    splitWordsAux (32 :: X) acc = acc.reverse :: splitWordsAux X [] := by
  simp only [splitWordsAux]
  rw [if_pos (by decide : isSpaceCode 32 = true), if_neg ha]

lemma splitWords_joinWords : ∀ ws : List (List Nat),
    (∀ w ∈ ws, w ≠ [] ∧ ∀ c ∈ w, isSpaceCode c = false) →
    splitWords (joinWords ws) = ws := by
  intro ws
  induction ws with
  | nil => intro _; rfl
  | cons w ws ih =>
    intro h
    obtain ⟨hw, hwc⟩ := h w (List.mem_cons_self w ws)
    cases ws with
    | nil =>
      show splitWords (joinWords [w]) = [w]
      have h1 : joinWords [w] = w := rfl
      rw [h1]
      unfold splitWords
      have h2 : splitWordsAux (w ++ []) [] = splitWordsAux [] (w.reverse ++ []) :=
        splitWordsAux_word w [] [] hwc
      rw [List.append_nil] at h2
      rw [h2, List.append_nil]
      show (if w.reverse = [] then [] else [w.reverse.reverse]) = [w]
      rw [if_neg (by simpa using hw), List.reverse_reverse]
    | cons w2 ws2 =>
      have h1 : joinWords (w :: w2 :: ws2) = w ++ 32 :: joinWords (w2 :: ws2) := rfl
      show splitWords (joinWords (w :: w2 :: ws2)) = w :: w2 :: ws2
      rw [h1]
      unfold splitWords
      rw [splitWordsAux_word w (32 :: joinWords (w2 :: ws2)) [] hwc, List.append_nil]
      rw [splitWordsAux_space _ _ (by simpa using hw), List.reverse_reverse]
      have h3 := ih (fun w' hw' => h w' (List.mem_cons_of_mem w hw'))
      unfold splitWords at h3
      rw [h3]

lemma splitWordsAux_mem : ∀ (l acc : List Nat),
    (∀ c ∈ acc, isSpaceCode c = false) →
    ∀ w ∈ splitWordsAux l acc,
      w ≠ [] ∧ ∀ c ∈ w, isSpaceCode c = false ∧ (c ∈ l ∨ c ∈ acc) := by
  intro l
  induction l with
  | nil =>
    intro acc hacc w hw
    by_cases ha : acc = []
    · subst ha
      simp [splitWordsAux] at hw
    · simp only [splitWordsAux] at hw
      rw [if_neg ha] at hw
      have hwe : w = acc.reverse := by simpa using hw
      subst hwe
      refine ⟨by simpa using ha, fun c hc => ?_⟩
      have hcacc : c ∈ acc := by simpa using hc
      exact ⟨hacc c hcacc, Or.inr hcacc⟩
  | cons a rest ih =>
    intro acc hacc w hw
    simp only [splitWordsAux] at hw
    by_cases hs : isSpaceCode a = true
    · rw [if_pos hs] at hw
      by_cases ha : acc = []
      · rw [if_pos ha] at hw
        obtain ⟨h1, h2⟩ := ih [] (by simp) w hw
        refine ⟨h1, fun c hc => ?_⟩
        obtain ⟨hc1, hc2⟩ := h2 c hc
        rcases hc2 with hc2 | hc2
        · exact ⟨hc1, Or.inl (List.mem_cons_of_mem a hc2)⟩
        · simp at hc2
      · rw [if_neg ha] at hw
        rcases List.mem_cons.mp hw with rfl | hw
        · refine ⟨by simpa using ha, fun c hc => ?_⟩
          have hcacc : c ∈ acc := by simpa using hc
          exact ⟨hacc c hcacc, Or.inr hcacc⟩
        · obtain ⟨h1, h2⟩ := ih [] (by simp) w hw
          refine ⟨h1, fun c hc => ?_⟩
          obtain ⟨hc1, hc2⟩ := h2 c hc
          rcases hc2 with hc2 | hc2
          · exact ⟨hc1, Or.inl (List.mem_cons_of_mem a hc2)⟩
          · simp at hc2
    · rw [if_neg hs] at hw
      have hs' : isSpaceCode a = false := by simpa using hs
      have hacc' : ∀ c ∈ a :: acc, isSpaceCode c = false := by
        intro c hc
        rcases List.mem_cons.mp hc with rfl | hc
        · exact hs'
        · exact hacc c hc
      obtain ⟨h1, h2⟩ := ih (a :: acc) hacc' w hw
      refine ⟨h1, fun c hc => ?_⟩
      obtain ⟨hc1, hc2⟩ := h2 c hc
      rcases hc2 with hc2 | hc2
      · exact ⟨hc1, Or.inl (List.mem_cons_of_mem a hc2)⟩
      · rcases List.mem_cons.mp hc2 with rfl | hc2
        · exact ⟨hc1, Or.inl (List.mem_cons_self _ _)⟩
        · exact ⟨hc1, Or.inr hc2⟩

lemma joinWords_mem : ∀ (ws : List (List Nat)) (c : Nat), c ∈ joinWords ws →
    c = 32 ∨ ∃ w ∈ ws, c ∈ w := by
  intro ws
  induction ws with
  | nil =>
    intro c hc
    simp [joinWords] at hc
  | cons w ws ih =>
    intro c hc
    cases ws with
    | nil =>
      right
      exact ⟨w, List.mem_cons_self _ _, by simpa [joinWords] using hc⟩
    | cons w2 ws2 =>
      have h1 : joinWords (w :: w2 :: ws2) = w ++ 32 :: joinWords (w2 :: ws2) := rfl
      rw [h1] at hc
      rcases List.mem_append.mp hc with hc | hc
      · exact Or.inr ⟨w, List.mem_cons_self _ _, hc⟩
      · rcases List.mem_cons.mp hc with rfl | hc
        · exact Or.inl rfl
        · rcases ih c hc with hc32 | ⟨w', hw', hcw⟩
          · exact Or.inl hc32
          · exact Or.inr ⟨w', List.mem_cons_of_mem _ hw', hcw⟩

lemma sanitize_out_class (t : List Nat) :
    ∀ c ∈ sanitize_text t, (isWordCode c = true ∧ ¬(65 ≤ c ∧ c ≤ 90)) ∨ c = 32 := by
  intro c hc
  unfold sanitize_text at hc
  rcases joinWords_mem _ c hc with rfl | ⟨w, hw, hcw⟩
  · exact Or.inr rfl
  · obtain ⟨_, h2⟩ := splitWordsAux_mem (t.map sanitizeMap) [] (by simp) w hw
    obtain ⟨hns, hmem⟩ := h2 c hcw
    rcases hmem with hmem | hmem
    · obtain ⟨d, _, rfl⟩ := List.mem_map.mp hmem
      rcases sanitizeMap_class d with hcl | hcl
      · exact Or.inl hcl
      · rw [hcl] at hns
        cases hns
    · simp at hmem

lemma sanitize_words_good (t : List Nat) :
    ∀ w ∈ splitWords (t.map sanitizeMap), w ≠ [] ∧ ∀ c ∈ w, isSpaceCode c = false := by
  intro w hw
  obtain ⟨h1, h2⟩ := splitWordsAux_mem (t.map sanitizeMap) [] (by simp) w hw
  exact ⟨h1, fun c hc => (h2 c hc).1⟩

/-- C10.  `sanitize_text` is idempotent, and every character of its output is
either a non-uppercase word character (lowercase letter, digit or underscore:
no uppercase letters) or a single space (no punctuation characters). -/
theorem claim10_sanitize_idempotent :
    (∀ t : List Nat, sanitize_text (sanitize_text t) = sanitize_text t) ∧
    (∀ t : List Nat, ∀ c ∈ sanitize_text t,
        (isWordCode c = true ∧ ¬(65 ≤ c ∧ c ≤ 90)) ∨ c = 32) := by
  constructor
  · intro t
    have hfix : List.map sanitizeMap (sanitize_text t) = sanitize_text t :=
      map_fix _ _ (fun c hc => sanitizeMap_fix c (sanitize_out_class t c hc))
    have hws := sanitize_words_good t
    calc sanitize_text (sanitize_text t)
        = joinWords (splitWords (List.map sanitizeMap (sanitize_text t))) := rfl
      _ = joinWords (splitWords (sanitize_text t)) := by rw [hfix]
      _ = joinWords (splitWords (joinWords (splitWords (List.map sanitizeMap t)))) := rfl
      _ = joinWords (splitWords (List.map sanitizeMap t)) := by
            rw [splitWords_joinWords _ hws]
      _ = sanitize_text t := rfl
  · exact sanitize_out_class

/-- Witness for C10 at a concrete mixed-case punctuated input. -/
theorem claim10_witness :
    sanitize_text (sanitize_text (pyOfString ("Ab, c!"))) =
      sanitize_text (pyOfString ("Ab, c!")) ∧
    ((isWordCode 97 = true ∧ ¬(65 ≤ 97 ∧ 97 ≤ 90)) ∨ (97 : Nat) = 32) :=
  ⟨claim10_sanitize_idempotent.1 _,
   claim10_sanitize_idempotent.2 (pyOfString ("Ab, c!")) 97 (by decide)⟩

end WhisperWriter
